import Mathlib

/-!
Verification development for the PDC-Algos causal-delivery simulators
(`BSS.py`, `SES.py`, `MatrixClock.py`).

The protocol state of each simulator is embedded shallowly:

* vector clocks (`BSS.py` / `SES.py`: numpy arrays of `num_processes`
  integers) become total maps `Fin n → ℤ`;
* matrix clocks (`MatrixClock.py`: dict-of-dict keyed by the fixed
  three-element `PROCESS_NAMES` list) become maps `Fin 3 → Fin 3 → ℤ`;
* the GUI / printing callbacks carry no protocol state and are dropped;
* the recursive buffered-message cascade of `BSS.py` (`deliver_message`
  calls `check_buffer`, which calls `deliver_message` again) is embedded
  with an explicit recursion-depth budget (`fuel`), returning `none` when
  the budget is exhausted; the `while`-loop drain of `MatrixClock.py`
  is embedded as a well-founded recursion on the size of the pending list.
-/

namespace PDC

/-- Outcome of a `receive_message` call: the message was either delivered
immediately or appended to the out-of-order buffer. -/
inductive Outcome where
  | Delivered
  | Buffered
deriving DecidableEq, Repr

namespace BSS

/-- A vector clock over `n` processes (`np.zeros(num_processes, dtype=int)`
and its descendants in `BSS.py`/`SES.py`). -/
abbrev Clock (n : ℕ) := Fin n → ℤ

/-- A BSS/SES message: `{"sender": self.id, "timestamp": timestamp}`
(`BSS.py` line 26).  The label/receiver fields of `SES.py` carry no
protocol state and are omitted. -/
structure BMsg (n : ℕ) where
  sender : Fin n
  timestamp : Clock n

instance {n : ℕ} : DecidableEq (BMsg n) := fun a b =>
  decidable_of_iff (a.sender = b.sender ∧ a.timestamp = b.timestamp)
    (by cases a; cases b; simp)

/-- Vector-clock merge, `np.maximum(self.vector_clock, timestamp)`
(`BSS.py` line 57, `SES.py` line 58). -/
def mergeClock {n : ℕ} (L ts : Clock n) : Clock n := fun i => max (L i) (ts i)

/-- The VectorFull (BSS) deliverability check, `BSS.py` lines 44-45:
`all(self.vector_clock[i] >= timestamp[i] for i in range(self.num_processes)
if i != sender) and self.vector_clock[sender] == timestamp[sender] - 1`. -/
def bssDeliverable {n : ℕ} (L : Clock n) (m : BMsg n) : Bool :=
  decide (∀ i, i ≠ m.sender → L i ≥ m.timestamp i) &&
  decide (L m.sender = m.timestamp m.sender - 1)

/-- The VectorSingleDependency (SES) deliverability check, `SES.py` line 45:
`self.vector_clock[sender] == timestamp[sender] - 1`. -/
def sesDeliverable {n : ℕ} (L : Clock n) (m : BMsg n) : Bool :=
  decide (L m.sender = m.timestamp m.sender - 1)

/-- The protocol state of one `ProcessBSS` (`BSS.py` lines 11-14): its id,
its vector clock and its out-of-order buffer.  The GUI reference holds no
protocol state. -/
structure BState (n : ℕ) where
  id : Fin n
  vector_clock : Clock n
  buffer : List (BMsg n)

instance {n : ℕ} : DecidableEq (BState n) := fun a b =>
  decidable_of_iff (a.id = b.id ∧ a.vector_clock = b.vector_clock ∧ a.buffer = b.buffer)
    (by cases a; cases b; simp)

/-- `increment_clock` (`BSS.py` lines 17-19): `self.vector_clock[self.id] += 1`. -/
def increment_clock {n : ℕ} (st : BState n) : BState n :=
  { st with vector_clock := fun i =>
      if i = st.id then st.vector_clock i + 1 else st.vector_clock i }

/-- `send_message` (`BSS.py` lines 21-26): increment the local clock, then
snapshot it (`timestamp = self.vector_clock.copy()`) into a fresh message.
The network hand-off and animation are external to the protocol state. -/
def send_message {n : ℕ} (st : BState n) : BState n × BMsg n :=
  let st' := increment_clock st
  (st', { sender := st'.id, timestamp := st'.vector_clock })

/-- The loop of `check_buffer` (`BSS.py` lines 63-72).  `copy` is the
snapshot `self.buffer[:]` taken when the pass started; `L`/`buf` are the
live clock and live buffer.  A deliverable snapshot entry is delivered
(`deliver_message`, `BSS.py` lines 51-61: merge the clocks, then recursively
re-check the buffer over a fresh snapshot of the live buffer) and afterwards
removed from the live buffer (`self.buffer.remove(message)`).  `fuel` is a
step budget bounding the recursion, an artifact of the embedding only:
`none` means the budget ran out before the cascade finished. -/
def cbRun {n : ℕ} : ℕ → List (BMsg n) → Clock n → List (BMsg n) →
    Option (Clock n × List (BMsg n))
  | 0, _, _, _ => none
  | _ + 1, [], L, buf => some (L, buf)
  | fuel + 1, m :: rest, L, buf =>
    if bssDeliverable L m then
      match cbRun fuel buf (mergeClock L m.timestamp) buf with
      | none => none
      | some (L', buf') => cbRun fuel rest L' (buf'.erase m)
    else
      cbRun fuel rest L buf

/-- `check_buffer` (`BSS.py` lines 63-72): iterate over a copy of the current
buffer, delivering every entry whose dependencies are now satisfied. -/
def check_buffer {n : ℕ} (fuel : ℕ) (L : Clock n) (buf : List (BMsg n)) :
    Option (Clock n × List (BMsg n)) :=
  cbRun fuel buf L buf

/-- `receive_message` (`BSS.py` lines 36-49): run the causal-ordering check;
on success deliver (`deliver_message`, lines 51-61: merge the clocks and then
drain the buffer), otherwise append the message to the buffer. -/
def receive_message {n : ℕ} (fuel : ℕ) (st : BState n) (m : BMsg n) :
    Option (BState n × Outcome) :=
  if bssDeliverable st.vector_clock m then
    match check_buffer fuel (mergeClock st.vector_clock m.timestamp) st.buffer with
    | none => none
    | some (L', buf') =>
      some ({ st with vector_clock := L', buffer := buf' }, Outcome.Delivered)
  else
    some ({ st with buffer := st.buffer ++ [m] }, Outcome.Buffered)

lemma le_mergeClock_left {n : ℕ} (L ts : Clock n) (i : Fin n) :
    L i ≤ mergeClock L ts i := le_max_left _ _

lemma le_mergeClock_right {n : ℕ} (L ts : Clock n) (i : Fin n) :
    ts i ≤ mergeClock L ts i := le_max_right _ _

/-- Once the local clock entry for a message's sender has reached the
message's own sender entry, the BSS check can never succeed again: it
demands `L[sender] = timestamp[sender] - 1 < timestamp[sender]`. -/
lemma bssDeliverable_false_of_ge {n : ℕ} {L : Clock n} {m : BMsg n}
    (h : m.timestamp m.sender ≤ L m.sender) : bssDeliverable L m = false := by
  simp only [bssDeliverable, Bool.and_eq_false_iff, decide_eq_false_iff_not]
  right
  omega

/-- Fixed-point property of the `check_buffer` loop: if the entry state
already rejects every buffered message that the loop will not scan again,
then the exit state rejects every remaining buffered message.  Every
delivery inside the loop starts a nested full pass over the whole live
buffer, so after the last delivery every surviving message has been checked
against the final clock. -/
lemma cbRun_fixed {n : ℕ} :
    ∀ (fuel : ℕ) (copy : List (BMsg n)) (L : Clock n) (buf : List (BMsg n))
      (L' : Clock n) (buf' : List (BMsg n)),
      cbRun fuel copy L buf = some (L', buf') →
      (∀ m ∈ buf, m ∉ copy → bssDeliverable L m = false) →
      ∀ m ∈ buf', bssDeliverable L' m = false := by
  intro fuel
  induction fuel with
  | zero =>
    intro copy L buf L' buf' h
    exact absurd h (by simp [cbRun])
  | succ fuel ih =>
    intro copy L buf L' buf' h hinv
    match copy with
    | [] =>
      rw [cbRun] at h
      injection h with h
      injection h with h1 h2
      subst h1; subst h2
      exact fun m hm => hinv m hm (List.not_mem_nil m)
    | m0 :: rest =>
      rw [cbRun] at h
      by_cases hd : bssDeliverable L m0
      · rw [if_pos hd] at h
        rcases hcb : cbRun fuel buf (mergeClock L m0.timestamp) buf with _ | p
        · rw [hcb] at h; exact absurd h (by simp)
        · rw [hcb] at h
          obtain ⟨L1, buf1⟩ := p
          have hfix := ih buf (mergeClock L m0.timestamp) buf L1 buf1 hcb
            (fun x hx hnx => absurd hx hnx)
          exact ih rest L1 (buf1.erase m0) L' buf' h
            (fun x hx _ => hfix x (List.mem_of_mem_erase hx))
      · rw [if_neg hd] at h
        refine ih rest L buf L' buf' h ?_
        intro x hx hxr
        by_cases hxm : x = m0
        · subst hxm
          exact Bool.not_eq_true _ ▸ hd
        · exact hinv x hx (by
            intro hmem
            rcases List.mem_cons.mp hmem with h1 | h1
            · exact hxm h1
            · exact hxr h1)

/-- Whenever `check_buffer` completes within its step budget, the resulting
buffer is a fixed point: no remaining buffered message passes the BSS check
against the resulting clock. -/
lemma check_buffer_fixed {n : ℕ} :
    ∀ (fuel : ℕ) (L : Clock n) (buf : List (BMsg n)) (L' : Clock n)
      (buf' : List (BMsg n)),
      check_buffer fuel L buf = some (L', buf') →
      ∀ m ∈ buf', bssDeliverable L' m = false := by
  intro fuel L buf L' buf' h
  exact cbRun_fixed fuel buf L buf L' buf' h (fun m hm hnm => absurd hm hnm)

/-- Receive-level fixed point for `ProcessBSS`: when `receive_message`
completes, a delivery leaves no deliverable message buffered, and a
buffering preserves that property from the pre-state. -/
lemma bss_receive_fixed {n : ℕ} (fuel : ℕ) (st : BState n) (m : BMsg n)
    (st' : BState n) (out : Outcome)
    (h : receive_message fuel st m = some (st', out))
    (hinv : ∀ x ∈ st.buffer, bssDeliverable st.vector_clock x = false) :
    ∀ x ∈ st'.buffer, bssDeliverable st'.vector_clock x = false := by
  by_cases hd : bssDeliverable st.vector_clock m
  · rw [receive_message, if_pos hd] at h
    rcases hcb : check_buffer fuel (mergeClock st.vector_clock m.timestamp)
        st.buffer with _ | p
    · rw [hcb] at h
      exact absurd h (by simp)
    · rw [hcb] at h
      obtain ⟨L', buf'⟩ := p
      injection h with h
      injection h with h1 _
      subst h1
      exact check_buffer_fixed fuel _ _ _ _ hcb
  · rw [receive_message, if_neg hd] at h
    injection h with h
    injection h with h1 _
    subst h1
    intro x hx
    rcases List.mem_append.mp hx with h1 | h1
    · exact hinv x h1
    · rcases List.mem_singleton.mp h1 with rfl
      exact Bool.not_eq_true _ ▸ hd

end BSS

namespace MC

/-- The fixed process universe of `MatrixClock.py`:
`PROCESS_NAMES = ["P1", "P2", "P3"]`, embedded as `Fin 3`. -/
abbrev PName := Fin 3

/-- A matrix clock: the dict-of-dict `{p: {q: ...}}` over the three fixed
process names (`initial_matrix`, `MatrixClock.py` lines 7-9). -/
abbrev MatrixClock := Fin 3 → Fin 3 → ℤ

/-- `initial_matrix` (`MatrixClock.py` lines 7-9): all cells zero. -/
def initial_matrix : MatrixClock := fun _ _ => 0

/-- The `Message` class of `MatrixClock.py` (lines 15-19): an id, the
sender's name, and a snapshot of the sender's matrix clock. -/
structure Message where
  msg_id : ℕ
  sender : PName
  matrix : MatrixClock

instance : DecidableEq Message := fun a b =>
  decidable_of_iff (a.msg_id = b.msg_id ∧ a.sender = b.sender ∧ a.matrix = b.matrix)
    (by cases a; cases b; simp)

/-- The `Process` class state of `MatrixClock.py` (lines 41-46): name,
matrix clock, delivered-message log, and pending buffer. -/
structure Process where
  name : PName
  matrix : MatrixClock
  delivered : List ℕ
  pending : List Message

instance : DecidableEq Process := fun a b =>
  decidable_of_iff (a.name = b.name ∧ a.matrix = b.matrix ∧
      a.delivered = b.delivered ∧ a.pending = b.pending)
    (by cases a; cases b; simp)

/-- `is_deliverable` (`MatrixClock.py` lines 20-38): the sender's diagonal
entry in the snapshot must be exactly one ahead of the receiver's view of
the sender, and no other diagonal entry of the snapshot may exceed the
receiver's view. -/
def is_deliverable (proc : Process) (msg : Message) : Bool :=
  if msg.matrix msg.sender msg.sender ≠ proc.matrix msg.sender msg.sender + 1 then
    false
  else
    decide (∀ p : PName, p ≠ msg.sender → ¬ msg.matrix p p > proc.matrix p p)

/-- `send_message` (`MatrixClock.py` lines 47-57): increment the sender's own
diagonal entry, then hand out a deep-copied snapshot of the updated matrix. -/
def send_message (proc : Process) (message_id : ℕ) : Process × Message :=
  let proc' := { proc with matrix := fun p q =>
      if p = proc.name ∧ q = proc.name then proc.matrix p q + 1 else proc.matrix p q }
  (proc', { msg_id := message_id, sender := proc.name, matrix := proc'.matrix })

/-- The matrix-clock merge of `deliver_message` (`MatrixClock.py` lines
86-89): `self.matrix[p][q] = max(self.matrix[p][q], message.matrix[p][q])`
over every cell; the cells are independent, so the in-place loop equals the
component-wise maximum. -/
def mergeMatrix (A B : MatrixClock) : MatrixClock := fun p q => max (A p q) (B p q)

/-- `deliver_message` (`MatrixClock.py` lines 75-92): record the message id,
merge every matrix cell by component-wise max, then increment the receiver's
own diagonal entry. -/
def deliver_message (proc : Process) (msg : Message) : Process :=
  let merged : MatrixClock := mergeMatrix proc.matrix msg.matrix
  { proc with
    delivered := proc.delivered ++ [msg.msg_id]
    matrix := fun p q =>
      if p = proc.name ∧ q = proc.name then merged p q + 1 else merged p q }

/-- One pass of the `while` loop in `try_deliver_pending` (`MatrixClock.py`
lines 94-106): scan the snapshot `self.pending[:]` taken at the start of the
pass; each deliverable entry is first removed from the live pending list and
then delivered; the returned flag is `delivered_now`. -/
def passOnce (proc : Process) (msgs : List Message) : Process × Bool :=
  match msgs with
  | [] => (proc, false)
  | msg :: rest =>
    if is_deliverable proc msg then
      let proc1 := deliver_message { proc with pending := proc.pending.erase msg } msg
      ((passOnce proc1 rest).1, true)
    else
      passOnce proc rest

/-- A pass over a sub-multiset of the live pending list can only shrink the
pending list, and shrinks it strictly whenever it delivered something. -/
lemma passOnce_length (msgs : List Message) : ∀ (proc : Process),
    (↑msgs : Multiset Message) ≤ (↑proc.pending : Multiset Message) →
    (passOnce proc msgs).1.pending.length ≤ proc.pending.length ∧
    ((passOnce proc msgs).2 = true →
      (passOnce proc msgs).1.pending.length < proc.pending.length) := by
  induction msgs with
  | nil =>
    intro proc _
    exact ⟨le_refl _, fun h => absurd h (by simp [passOnce])⟩
  | cons msg rest ih =>
    intro proc hsub
    have hmem : msg ∈ proc.pending := by
      rw [← Multiset.mem_coe]
      exact Multiset.mem_of_le hsub (by simp)
    by_cases hd : is_deliverable proc msg
    · have hrest : (↑rest : Multiset Message) ≤
          (↑(proc.pending.erase msg) : Multiset Message) := by
        rw [← Multiset.coe_erase]
        rw [Multiset.le_iff_count]
        intro a
        have hc := Multiset.le_iff_count.mp hsub a
        by_cases ha : a = msg
        · subst ha
          rw [Multiset.count_erase_self]
          have : Multiset.count a (↑(a :: rest) : Multiset Message) =
              Multiset.count a (↑rest : Multiset Message) + 1 := by
            simp [Multiset.count_cons_self]
          omega
        · rw [Multiset.count_erase_of_ne ha]
          have : Multiset.count a (↑(msg :: rest) : Multiset Message) =
              Multiset.count a (↑rest : Multiset Message) := by
            simp [List.count_cons, ha]
          omega
      have hlen : (proc.pending.erase msg).length + 1 = proc.pending.length :=
        List.length_erase_add_one hmem
      have heq : passOnce proc (msg :: rest) =
          ((passOnce (deliver_message { proc with pending := proc.pending.erase msg }
            msg) rest).1, true) := by
        simp only [passOnce, if_pos hd]
      have h1 := (ih (deliver_message { proc with pending := proc.pending.erase msg }
        msg) hrest).1
      have hpend : (deliver_message { proc with pending := proc.pending.erase msg }
          msg).pending = proc.pending.erase msg := rfl
      rw [hpend] at h1
      rw [heq]
      dsimp only
      exact ⟨by omega, fun _ => by omega⟩
    · have hrest : (↑rest : Multiset Message) ≤ (↑proc.pending : Multiset Message) :=
        le_trans (Multiset.le_cons_self _ _) (by simpa using hsub)
      have h1 := ih proc hrest
      simp only [passOnce, if_neg hd]
      exact h1

/-- A pass that delivered nothing changed nothing, and certifies that every
scanned message fails the deliverability check. -/
lemma passOnce_false (msgs : List Message) : ∀ (proc proc' : Process),
    passOnce proc msgs = (proc', false) →
    proc' = proc ∧ ∀ m ∈ msgs, is_deliverable proc m = false := by
  induction msgs with
  | nil =>
    intro proc proc' h
    simp only [passOnce] at h
    injection h with h1 _
    exact ⟨h1.symm, fun m hm => absurd hm (List.not_mem_nil m)⟩
  | cons msg rest ih =>
    intro proc proc' h
    simp only [passOnce] at h
    by_cases hd : is_deliverable proc msg
    · rw [if_pos hd] at h
      injection h with _ h2
      exact absurd h2.symm (by simp)
    · rw [if_neg hd] at h
      obtain ⟨h1, h2⟩ := ih proc proc' h
      refine ⟨h1, fun m hm => ?_⟩
      rcases List.mem_cons.mp hm with rfl | hm'
      · exact Bool.not_eq_true _ ▸ hd
      · exact h2 m hm'

/-- `try_deliver_pending` (`MatrixClock.py` lines 94-106): repeat passes over
the pending list until one full pass delivers nothing. -/
def try_deliver_pending (proc : Process) : Process :=
  let r := passOnce proc proc.pending
  if h : r.2 = true then try_deliver_pending r.1 else r.1
termination_by proc.pending.length
decreasing_by
  exact (passOnce_length proc.pending proc (le_refl _)).2 h

lemma tdp_eq (proc : Process) :
    try_deliver_pending proc =
      if (passOnce proc proc.pending).2 = true then
        try_deliver_pending (passOnce proc proc.pending).1
      else (passOnce proc proc.pending).1 := by
  rw [try_deliver_pending]
  rfl

lemma tdp_of_false (proc proc' : Process)
    (hp : passOnce proc proc.pending = (proc', false)) :
    try_deliver_pending proc = proc' := by
  rw [tdp_eq, hp]
  simp

lemma tdp_of_true (proc proc' : Process)
    (hp : passOnce proc proc.pending = (proc', true)) :
    try_deliver_pending proc = try_deliver_pending proc' := by
  rw [tdp_eq, hp]
  simp

/-- The `while` loop of `try_deliver_pending` stops only at a fixed point:
no message left pending is deliverable against the resulting state. -/
lemma try_deliver_pending_fixed :
    ∀ (k : ℕ) (proc : Process), proc.pending.length ≤ k →
      ∀ m ∈ (try_deliver_pending proc).pending,
        is_deliverable (try_deliver_pending proc) m = false := by
  intro k
  induction k with
  | zero =>
    intro proc hk
    rcases hp : passOnce proc proc.pending with ⟨proc', b⟩
    cases b
    · obtain ⟨rfl, hall⟩ := passOnce_false proc.pending proc proc' hp
      rw [tdp_of_false proc' proc' hp]
      exact fun m hm => hall m hm
    · have hlt := (passOnce_length proc.pending proc (le_refl _)).2
      rw [hp] at hlt
      have := hlt rfl
      omega
  | succ k ih =>
    intro proc hk
    rcases hp : passOnce proc proc.pending with ⟨proc', b⟩
    cases b
    · obtain ⟨rfl, hall⟩ := passOnce_false proc.pending proc proc' hp
      rw [tdp_of_false proc' proc' hp]
      exact fun m hm => hall m hm
    · have hlt := (passOnce_length proc.pending proc (le_refl _)).2
      rw [hp] at hlt
      have hlt' := hlt rfl
      dsimp only at hlt'
      rw [tdp_of_true proc proc' hp]
      exact ih proc' (by omega)

/-- `receive_message` (`MatrixClock.py` lines 59-73): deliver and drain when
the check passes, otherwise buffer the message. -/
def receive_message (proc : Process) (msg : Message) : Process × Outcome :=
  if is_deliverable proc msg then
    (try_deliver_pending (deliver_message proc msg), Outcome.Delivered)
  else
    ({ proc with pending := proc.pending ++ [msg] }, Outcome.Buffered)

/-- Receive-level fixed point for the matrix-clock `Process`: a delivery
leaves no deliverable message pending, and a buffering preserves that
property from the pre-state. -/
lemma mc_receive_fixed (proc : Process) (msg : Message)
    (hinv : ∀ m ∈ proc.pending, is_deliverable proc m = false) :
    ∀ m ∈ (receive_message proc msg).1.pending,
      is_deliverable (receive_message proc msg).1 m = false := by
  by_cases hd : is_deliverable proc msg
  · rw [receive_message, if_pos hd]
    exact try_deliver_pending_fixed
      (deliver_message proc msg).pending.length _ (le_refl _)
  · rw [receive_message, if_neg hd]
    intro m hm
    dsimp only at hm ⊢
    rcases List.mem_append.mp hm with h1 | h1
    · exact hinv m h1
    · rcases List.mem_singleton.mp h1 with rfl
      exact Bool.not_eq_true _ ▸ hd

end MC

namespace Raw

/-!
Raw, unvalidated view of `ProcessBSS.receive_message` (`BSS.py` lines
36-49), needed to settle what happens on malformed messages.  Here the
vector clock is a plain integer array, the sender id an arbitrary integer,
and indexing follows numpy semantics: a negative index `i` with
`-len ≤ i < 0` wraps around to `len + i`, anything outside `[-len, len)`
raises `IndexError`.  Python's `and` and the `all(...)` generator
short-circuit, so comparisons (and hence index errors) later in evaluation
order never happen once a comparison came out `False`.
-/

/-- The Python exception that unvalidated indexing can raise. -/
inductive PyErr where
  | indexError
deriving DecidableEq, Repr

/-- numpy integer indexing `a[i]` with wrap-around for negative indices. -/
def npGet (a : List ℤ) (i : ℤ) : Except PyErr ℤ :=
  if 0 ≤ i ∧ i < a.length then Except.ok (a.getD i.toNat 0)
  else if -(a.length : ℤ) ≤ i ∧ i < 0 then Except.ok (a.getD (i + a.length).toNat 0)
  else Except.error PyErr.indexError

/-- A raw message exactly as `receive_message` sees it: an arbitrary integer
sender id and an arbitrary integer array timestamp, with no relation to the
receiver's `num_processes`. -/
structure RMsg where
  sender : ℤ
  timestamp : List ℤ
deriving DecidableEq, Repr

/-- The raw receiver state: `num_processes`, the vector clock array, and the
buffer. -/
structure RState where
  num_processes : ℕ
  vector_clock : List ℤ
  buffer : List RMsg
deriving DecidableEq, Repr

/-- The generator `all(self.vector_clock[i] >= timestamp[i] for i in
range(self.num_processes) if i != sender)` (`BSS.py` line 44), evaluated
left to right: each surviving index compares `vector_clock[i]` and then
`timestamp[i]`; the first `False` comparison stops evaluation, so index
errors at later positions are never raised. -/
def causalAll (L ts : List ℤ) (sender : ℤ) : List ℕ → Except PyErr Bool
  | [] => Except.ok true
  | i :: rest =>
    if (i : ℤ) = sender then causalAll L ts sender rest
    else
      match npGet L i with
      | Except.error e => Except.error e
      | Except.ok li =>
        match npGet ts i with
        | Except.error e => Except.error e
        | Except.ok ti =>
          if li ≥ ti then causalAll L ts sender rest else Except.ok false

/-- The receive-time decision of `BSS.py` lines 43-49 over raw messages:
evaluate the causal-ordering condition exactly as Python does (the `all`
clause first; the `and`'s right operand `self.vector_clock[sender] ==
timestamp[sender] - 1` only when the `all` clause came out `True`), then
branch.  `Delivered` means control reaches `deliver_message`; `Buffered`
means the raw message was appended to the buffer (`self.buffer.append`).
No validation of the sender id or of the timestamp's dimension precedes
this decision. -/
def receive_decision (st : RState) (m : RMsg) : Except PyErr (Outcome × List RMsg) :=
  match causalAll st.vector_clock m.timestamp m.sender (List.range st.num_processes) with
  | Except.error e => Except.error e
  | Except.ok false => Except.ok (Outcome.Buffered, st.buffer ++ [m])
  | Except.ok true =>
    match npGet st.vector_clock m.sender with
    | Except.error e => Except.error e
    | Except.ok ls =>
      match npGet m.timestamp m.sender with
      | Except.error e => Except.error e
      | Except.ok ts_s =>
        if ls = ts_s - 1 then Except.ok (Outcome.Delivered, st.buffer)
        else Except.ok (Outcome.Buffered, st.buffer ++ [m])

end Raw

namespace Heap

/-!
Store-level model for snapshot immutability.  Python variables hold
references into a heap of integer arrays, and the protocol operations of
`BSS.py` and `MatrixClock.py` touch that heap in exactly these ways:

* `self.vector_clock[self.id] += 1` (`BSS.py` line 19) and the diagonal
  increments of `MatrixClock.py` (lines 56, 92) write in place into the
  cell currently bound to the clock;
* `timestamp = self.vector_clock.copy()` (`BSS.py` line 24) and
  `snapshot = copy.deepcopy(self.matrix)` (`MatrixClock.py` line 52)
  allocate a fresh cell holding a value copy of the clock cell; the
  message keeps a reference to that fresh cell;
* `self.vector_clock = np.maximum(self.vector_clock, timestamp)`
  (`BSS.py` line 57, `SES.py` line 58) allocates a fresh cell for the
  merge result and rebinds the clock name to it;
* the in-place matrix merge of `MatrixClock.py` (lines 87-89) writes the
  merged cells into the cell bound to the matrix;
* buffering (`self.buffer.append`) touches no clock cell.

Matrix clocks are flattened to integer arrays here; the property depends
only on which heap cell each operation touches, not on the cell contents.
-/

/-- The heap: an allocation bound `next`, a store mapping references to
array values, and the reference currently bound to `self.vector_clock`
(resp. `self.matrix`). -/
structure HState where
  clockRef : ℕ
  next : ℕ
  store : ℕ → List ℤ

/-- In-place write to an existing cell. -/
def write (st : HState) (r : ℕ) (v : List ℤ) : HState :=
  { st with store := fun x => if x = r then v else st.store x }

/-- Allocation of a fresh cell holding `v`; returns its reference. -/
def alloc (st : HState) (v : List ℤ) : HState × ℕ :=
  ({ st with
      next := st.next + 1
      store := fun x => if x = st.next then v else st.store x }, st.next)

/-- The array currently bound to the clock. -/
def clockVal (st : HState) : List ℤ := st.store st.clockRef

/-- Component-wise maximum, `np.maximum` on the flattened arrays. -/
def zmax (a b : List ℤ) : List ℤ := List.zipWith max a b

/-- The heap effect of each primitive clock operation in the sources. -/
inductive HOp where
  | incEntry (i : ℕ)
  | snapshotCopy
  | rebindMax (tsRef : ℕ)
  | mergeWrite (tsRef : ℕ)

/-- One heap step. -/
def stepH (st : HState) : HOp → HState
  | HOp.incEntry i =>
    write st st.clockRef ((clockVal st).set i ((clockVal st).getD i 0 + 1))
  | HOp.snapshotCopy => (alloc st (clockVal st)).1
  | HOp.rebindMax r =>
    let a := alloc st (zmax (clockVal st) (st.store r))
    { a.1 with clockRef := a.2 }
  | HOp.mergeWrite r =>
    write st st.clockRef (zmax (clockVal st) (st.store r))

/-- Run a sequence of heap effects. -/
def runH (st : HState) : List HOp → HState
  | [] => st
  | op :: ops => runH (stepH st op) ops

/-- `send_message` at the heap level (`BSS.py` lines 21-26,
`MatrixClock.py` lines 47-57): bump the clock cell in place, then snapshot
it into a fresh cell whose reference the returned message carries. -/
def sendH (st : HState) (i : ℕ) : HState × ℕ :=
  let st1 := stepH st (HOp.incEntry i)
  (stepH st1 HOp.snapshotCopy, st1.next)

/-- Frame property of a single heap step: a valid cell other than the one
bound to the clock is never written, the clock stays a valid reference, and
it never becomes that cell. -/
lemma stepH_frame (st : HState) (op : HOp) (r : ℕ)
    (hr : r < st.next) (hne : r ≠ st.clockRef) (hwf : st.clockRef < st.next) :
    (stepH st op).store r = st.store r ∧ r < (stepH st op).next ∧
    r ≠ (stepH st op).clockRef ∧ (stepH st op).clockRef < (stepH st op).next := by
  have hrn : r ≠ st.next := by omega
  cases op with
  | incEntry i =>
    refine ⟨?_, hr, hne, hwf⟩
    simp [stepH, write, hne]
  | snapshotCopy =>
    refine ⟨by simp [stepH, alloc, hrn], by simp [stepH, alloc]; omega,
      by simp [stepH, alloc]; exact hne, by simp [stepH, alloc]; omega⟩
  | rebindMax tsRef =>
    refine ⟨by simp [stepH, alloc, hrn], by simp [stepH, alloc]; omega,
      by simp [stepH, alloc]; exact hrn, by simp [stepH, alloc]⟩
  | mergeWrite tsRef =>
    refine ⟨?_, hr, hne, hwf⟩
    simp [stepH, write, hne]

/-- Frame property of a whole run. -/
lemma runH_frame : ∀ (ops : List HOp) (st : HState) (r : ℕ),
    r < st.next → r ≠ st.clockRef → st.clockRef < st.next →
    (runH st ops).store r = st.store r := by
  intro ops
  induction ops with
  | nil => intro st r _ _ _; rfl
  | cons op rest ih =>
    intro st r hr hne hwf
    obtain ⟨h1, h2, h3, h4⟩ := stepH_frame st op r hr hne hwf
    calc (runH (stepH st op) rest).store r = (stepH st op).store r :=
          ih (stepH st op) r h2 h3 h4
      _ = st.store r := h1

end Heap

namespace Scenario

open BSS

/-- Initial state of process P0 in the spec's 3-process VectorFull scenario. -/
def P0 : BState 3 := ⟨0, fun _ => 0, []⟩

/-- Initial state of process P1. -/
def P1 : BState 3 := ⟨1, fun _ => 0, []⟩

/-- Initial state of process P2. -/
def P2 : BState 3 := ⟨2, fun _ => 0, []⟩

/-- P0 sends m1 (addressed to P2): new P0 state and the message m1. -/
def send1 : BState 3 × BMsg 3 := send_message P0

/-- P0 sends m2 (addressed to P1). -/
def send2 : BState 3 × BMsg 3 := send_message send1.1

/-- P1 receives m2. -/
def recv2 : Option (BState 3 × Outcome) := receive_message 9 P1 send2.2

/-- P1's state after receiving m2. -/
def P1a : BState 3 := (recv2.get (by decide)).1

/-- P1 sends m3 (addressed to P2). -/
def send3 : BState 3 × BMsg 3 := send_message P1a

/-- P2 receives m3 (before m1). -/
def recv3 : Option (BState 3 × Outcome) := receive_message 9 P2 send3.2

/-- P2's state after receiving m3. -/
def P2a : BState 3 := (recv3.get (by decide)).1

/-- P2 then receives m1. -/
def recv1 : Option (BState 3 × Outcome) := receive_message 9 P2a send1.2

/-- P2's state after receiving m1. -/
def P2b : BState 3 := (recv1.get (by decide)).1

end Scenario

deriving instance DecidableEq for Except

/-! ## Concrete inputs used by witnesses and counterexamples -/

/-- A matrix-clock message from P0 advertising its first send. -/
def msgC2 : MC.Message :=
  ⟨5, 0, fun p q => if p = 0 ∧ q = 0 then 1 else 0⟩

/-- A matrix-clock message (id 10, sender P0) that is deliverable at a
process still holding the all-zero matrix. -/
def msgD : MC.Message :=
  ⟨10, 0, fun p q => if p = 0 ∧ q = 0 then 1 else 0⟩

/-- A matrix-clock message (id 11, sender P0) far ahead of the all-zero
matrix, hence not deliverable there. -/
def msgX : MC.Message :=
  ⟨11, 0, fun p q => if p = 0 ∧ q = 0 then 5 else 0⟩

/-- A process state whose pending buffer already holds the deliverable
`msgD`. -/
def procX : MC.Process := ⟨1, fun _ _ => 0, [], [msgD]⟩

/-- A fresh matrix-clock process P1. -/
def procY : MC.Process := ⟨1, fun _ _ => 0, [], []⟩

/-- Two matrix-clock messages from the same sender whose snapshots agree on
every diagonal entry but differ off the diagonal. -/
def msgDiagA : MC.Message :=
  ⟨1, 0, fun p q => if p = 0 ∧ q = 0 then 1 else 0⟩

/-- Companion to `msgDiagA`: same sender and diagonal, different
off-diagonal cells. -/
def msgDiagB : MC.Message :=
  ⟨2, 0, fun p q => if p = 0 ∧ q = 0 then 1 else if p = q then 0 else 7⟩

/-- A raw 3-process receiver with the zero clock and an empty buffer. -/
def stR : Raw.RState := ⟨3, [0, 0, 0], []⟩

/-- A malformed raw message: sender id 5 is outside `[0, 3)` and the
timestamp is far ahead of the zero clock. -/
def mBad : Raw.RMsg := ⟨5, [9, 9, 9]⟩

/-- Another malformed raw message, sender id 7. -/
def mBad2 : Raw.RMsg := ⟨7, [3, 3, 3]⟩

/-- An initial heap: one allocated cell holding the zero clock `[0, 0]`,
bound to the clock reference. -/
def hst0 : Heap.HState := ⟨0, 1, fun x => if x = 0 then [0, 0] else []⟩

/-- A sequence of post-send clock mutations: a further send increment, a
vector-clock merge rebind, an in-place matrix-style merge, and another
snapshot. -/
def hops : List Heap.HOp :=
  [Heap.HOp.incEntry 0, Heap.HOp.rebindMax 1, Heap.HOp.mergeWrite 1,
   Heap.HOp.snapshotCopy]

/-- Every cell of the delivered matrix dominates the merge of the local
matrix and the snapshot. -/
lemma MC_deliver_matrix_ge (proc : MC.Process) (msg : MC.Message)
    (a b : MC.PName) :
    max (proc.matrix a b) (msg.matrix a b) ≤
      (MC.deliver_message proc msg).matrix a b := by
  show max (proc.matrix a b) (msg.matrix a b) ≤
    (if a = proc.name ∧ b = proc.name then
      MC.mergeMatrix proc.matrix msg.matrix a b + 1
    else MC.mergeMatrix proc.matrix msg.matrix a b)
  have hm : MC.mergeMatrix proc.matrix msg.matrix a b =
      max (proc.matrix a b) (msg.matrix a b) := rfl
  rw [hm]
  split
  · omega
  · exact le_refl _

/-! ## Claim theorems -/

/-- Claim C1: for every local vector clock `L` and message `m` with sender
`s`, the VectorFull (BSS) policy judges `m` deliverable iff
`L[s] = m.timestamp[s] - 1` and `L[k] ≥ m.timestamp[k]` for every process
`k ≠ s`; and when the predicate fails, `receive_message` appends `m` to the
buffer instead of delivering it. -/
theorem C1_vectorfull_predicate_and_buffering :
    (∀ (n : ℕ) (L : BSS.Clock n) (m : BSS.BMsg n),
      BSS.bssDeliverable L m = true ↔
        (L m.sender = m.timestamp m.sender - 1 ∧
         ∀ k, k ≠ m.sender → L k ≥ m.timestamp k)) ∧
    (∀ (n fuel : ℕ) (st : BSS.BState n) (m : BSS.BMsg n),
      BSS.bssDeliverable st.vector_clock m = false →
      BSS.receive_message fuel st m =
        some ({ st with buffer := st.buffer ++ [m] }, Outcome.Buffered)) := by
  constructor
  · intro n L m
    simp only [BSS.bssDeliverable, Bool.and_eq_true, decide_eq_true_eq]
    constructor
    · exact fun h => ⟨h.2, h.1⟩
    · exact fun h => ⟨h.2, h.1⟩
  · intro n fuel st m h
    rw [BSS.receive_message, if_neg (by simp [h])]

/-- Witness for C1 at a concrete input: a message from sender 1 with
timestamp `[0, 5]` fails the check against the zero clock and is buffered. -/
theorem C1_vectorfull_predicate_and_buffering_witness :
    BSS.receive_message 1 (⟨0, ![0, 0], []⟩ : BSS.BState 2)
        ⟨1, ![0, 5]⟩ =
      some (⟨0, ![0, 0], [⟨1, ![0, 5]⟩]⟩, Outcome.Buffered) :=
  C1_vectorfull_predicate_and_buffering.2 2 1 ⟨0, ![0, 0], []⟩ ⟨1, ![0, 5]⟩
    (by decide)

/-- Claim C4: every message deliverable under VectorFull is deliverable
under VectorSingleDependency (SES), and the implication is strict: for some
local clock and message the SES check holds while the VectorFull check
fails. -/
theorem C4_vectorfull_implies_ses_strict :
    (∀ (n : ℕ) (L : BSS.Clock n) (m : BSS.BMsg n),
      BSS.bssDeliverable L m = true → BSS.sesDeliverable L m = true) ∧
    (∃ (L : BSS.Clock 2) (m : BSS.BMsg 2),
      BSS.sesDeliverable L m = true ∧ BSS.bssDeliverable L m = false) := by
  constructor
  · intro n L m h
    simp only [BSS.bssDeliverable, Bool.and_eq_true] at h
    exact h.2
  · exact ⟨![0, 0], ⟨0, ![1, 5]⟩, by decide, by decide⟩

/-- Witness for C4 at a concrete input: the clock `[1, 0]` with a message
from sender 0 timestamped `[2, 0]` passes VectorFull, hence passes SES. -/
theorem C4_vectorfull_implies_ses_strict_witness :
    BSS.sesDeliverable ![1, 0] (⟨0, ![2, 0]⟩ : BSS.BMsg 2) = true :=
  C4_vectorfull_implies_ses_strict.1 2 ![1, 0] ⟨0, ![2, 0]⟩ (by decide)

/-- Claim C5: the clock merge (component-wise maximum for vector clocks,
cell-wise maximum for matrix clocks) is commutative and idempotent:
`merge(A,B) = merge(B,A)` and `merge(merge(A,B),B) = merge(A,B)`. -/
theorem C5_merge_commutative_idempotent :
    (∀ (n : ℕ) (A B : BSS.Clock n),
      BSS.mergeClock A B = BSS.mergeClock B A ∧
      BSS.mergeClock (BSS.mergeClock A B) B = BSS.mergeClock A B) ∧
    (∀ (A B : MC.MatrixClock),
      MC.mergeMatrix A B = MC.mergeMatrix B A ∧
      MC.mergeMatrix (MC.mergeMatrix A B) B = MC.mergeMatrix A B) := by
  constructor
  · intro n A B
    constructor
    · funext i
      exact max_comm _ _
    · funext i
      show max (max (A i) (B i)) (B i) = max (A i) (B i)
      rw [max_assoc, max_self]
  · intro A B
    constructor
    · funext p q
      exact max_comm _ _
    · funext p q
      show max (max (A p q) (B p q)) (B p q) = max (A p q) (B p q)
      rw [max_assoc, max_self]

/-- Claim C2: under the Matrix policy, delivery merges every cell by
component-wise maximum and then adds 1 to the receiver's own diagonal
entry; for a receiver distinct from the message's sender, the
deliverability predicate forces the snapshot's receiver-diagonal entry to
be at most the local one, so the post-delivery `matrix[r][r]` equals the
pre-delivery value plus 1. -/
theorem C2_matrix_delivery_self_increment (proc : MC.Process)
    (msg : MC.Message) (hne : proc.name ≠ msg.sender)
    (hd : MC.is_deliverable proc msg = true) :
    msg.matrix proc.name proc.name ≤ proc.matrix proc.name proc.name ∧
    (MC.deliver_message proc msg).matrix proc.name proc.name =
      proc.matrix proc.name proc.name + 1 := by
  have hle : msg.matrix proc.name proc.name ≤
      proc.matrix proc.name proc.name := by
    rw [MC.is_deliverable] at hd
    split at hd
    · exact absurd hd (by simp)
    · rw [decide_eq_true_eq] at hd
      have := hd proc.name hne
      omega
  refine ⟨hle, ?_⟩
  show (if proc.name = proc.name ∧ proc.name = proc.name then
      MC.mergeMatrix proc.matrix msg.matrix proc.name proc.name + 1
    else MC.mergeMatrix proc.matrix msg.matrix proc.name proc.name) =
    proc.matrix proc.name proc.name + 1
  rw [if_pos ⟨rfl, rfl⟩]
  have hm : MC.mergeMatrix proc.matrix msg.matrix proc.name proc.name =
      max (proc.matrix proc.name proc.name)
        (msg.matrix proc.name proc.name) := rfl
  rw [hm, max_eq_left hle]

/-- Witness for C2 at a concrete input: P1 (zero matrix) delivering P0's
first message sees its own diagonal entry go from 0 to 1. -/
theorem C2_matrix_delivery_self_increment_witness :
    (MC.deliver_message procY msgC2).matrix 1 1 = procY.matrix 1 1 + 1 :=
  (C2_matrix_delivery_self_increment procY msgC2 (by decide) (by decide)).2

/-- Claim C10: the Matrix deliverability check reads only the sender and
the diagonal of the message's snapshot: two messages with the same sender
whose snapshots agree on every diagonal entry get the same verdict at every
process, whatever their off-diagonal entries. -/
theorem C10_matrix_check_depends_only_on_diagonal (proc : MC.Process)
    (m1 m2 : MC.Message) (hs : m1.sender = m2.sender)
    (hdiag : ∀ p, m1.matrix p p = m2.matrix p p) :
    MC.is_deliverable proc m1 = MC.is_deliverable proc m2 := by
  simp only [MC.is_deliverable, hs, hdiag]

/-- Witness for C10 at a concrete input: two messages agreeing on the
diagonal but differing off it get the same verdict at a fresh process. -/
theorem C10_matrix_check_depends_only_on_diagonal_witness :
    MC.is_deliverable procY msgDiagA = MC.is_deliverable procY msgDiagB :=
  C10_matrix_check_depends_only_on_diagonal procY msgDiagA msgDiagB
    (by decide) (by decide)

/-- Claim C8: no spurious re-delivery.  After a message has been delivered
(merging its snapshot into the local clock), every later clock — any clock
dominating the merge result, since every clock operation only grows
entries — makes the deliverability predicate false for that same message:
for vector clocks both the BSS and SES checks fail, the message would only
be re-buffered; for matrix clocks `is_deliverable` fails and
`receive_message` re-buffers the message. -/
theorem C8_no_spurious_redelivery :
    (∀ (n : ℕ) (L : BSS.Clock n) (m : BSS.BMsg n) (L' : BSS.Clock n),
      (∀ i, BSS.mergeClock L m.timestamp i ≤ L' i) →
      BSS.bssDeliverable L' m = false ∧ BSS.sesDeliverable L' m = false) ∧
    (∀ (n fuel : ℕ) (st : BSS.BState n) (m : BSS.BMsg n),
      (∀ i, BSS.mergeClock st.vector_clock m.timestamp i ≤ st.vector_clock i) →
      BSS.receive_message fuel st m =
        some ({ st with buffer := st.buffer ++ [m] }, Outcome.Buffered)) ∧
    (∀ (proc : MC.Process) (msg : MC.Message) (proc' : MC.Process),
      (∀ a b, (MC.deliver_message proc msg).matrix a b ≤ proc'.matrix a b) →
      MC.is_deliverable proc' msg = false ∧
      MC.receive_message proc' msg =
        ({ proc' with pending := proc'.pending ++ [msg] }, Outcome.Buffered)) := by
  have hbss : ∀ (n : ℕ) (L : BSS.Clock n) (m : BSS.BMsg n) (L' : BSS.Clock n),
      (∀ i, BSS.mergeClock L m.timestamp i ≤ L' i) →
      BSS.bssDeliverable L' m = false ∧ BSS.sesDeliverable L' m = false := by
    intro n L m L' h
    have hs : m.timestamp m.sender ≤ L' m.sender :=
      le_trans (BSS.le_mergeClock_right L m.timestamp m.sender) (h m.sender)
    refine ⟨BSS.bssDeliverable_false_of_ge hs, ?_⟩
    simp only [BSS.sesDeliverable, decide_eq_false_iff_not]
    omega
  have hmc : ∀ (proc : MC.Process) (msg : MC.Message) (proc' : MC.Process),
      (∀ a b, (MC.deliver_message proc msg).matrix a b ≤ proc'.matrix a b) →
      MC.is_deliverable proc' msg = false := by
    intro proc msg proc' h
    have h1 : msg.matrix msg.sender msg.sender ≤
        proc'.matrix msg.sender msg.sender :=
      le_trans (le_trans (le_max_right _ _)
        (MC_deliver_matrix_ge proc msg msg.sender msg.sender))
        (h msg.sender msg.sender)
    rw [MC.is_deliverable, if_pos (show msg.matrix msg.sender msg.sender ≠
      proc'.matrix msg.sender msg.sender + 1 by omega)]
  refine ⟨hbss, ?_, ?_⟩
  · intro n fuel st m h
    have hf := (hbss n st.vector_clock m st.vector_clock h).1
    rw [BSS.receive_message, if_neg (by simp [hf])]
  · intro proc msg proc' h
    have hf := hmc proc msg proc' h
    exact ⟨hf, by rw [MC.receive_message, if_neg (by simp [hf])]⟩

/-- Witness for C8 at concrete inputs: after delivering P0's first message,
neither the vector-clock checks nor the matrix check accept it again, and
the receives merely re-buffer it. -/
theorem C8_no_spurious_redelivery_witness :
    BSS.bssDeliverable ![1, 0] (⟨0, ![1, 0]⟩ : BSS.BMsg 2) = false ∧
    BSS.receive_message 1 (⟨1, ![1, 0], []⟩ : BSS.BState 2) ⟨0, ![1, 0]⟩ =
      some (⟨1, ![1, 0], [⟨0, ![1, 0]⟩]⟩, Outcome.Buffered) ∧
    MC.is_deliverable (MC.deliver_message procY msgC2) msgC2 = false :=
  ⟨(C8_no_spurious_redelivery.1 2 ![0, 0] ⟨0, ![1, 0]⟩ ![1, 0]
      (by decide)).1,
   C8_no_spurious_redelivery.2.1 2 1 ⟨1, ![1, 0], []⟩ ⟨0, ![1, 0]⟩
      (by decide),
   (C8_no_spurious_redelivery.2.2 procY msgC2 (MC.deliver_message procY msgC2)
      (fun a b => le_refl _)).1⟩

/-- Counterexample to claim C3 as stated: quantified over every process
state, `receive_message` does not leave the buffer free of deliverable
messages — a state whose pending buffer already holds a deliverable message
(`msgD`) keeps it, still deliverable, when a further message (`msgX`) merely
gets buffered, because the buffered branch never drains. -/
theorem C3_counterexample :
    msgD ∈ (MC.receive_message procX msgX).1.pending ∧
    MC.is_deliverable (MC.receive_message procX msgX).1 msgD = true := by
  decide

/-- Claim C3 amended: when `receive_message` delivers, the resulting
pending buffer contains no message the deliverability predicate accepts
(unconditionally, including all cascaded drains); when it buffers, the new
message is itself undeliverable and the no-deliverable-pending property is
preserved from the pre-state — so it holds along every run from the empty
buffer.  Stated for the matrix-clock process and for `ProcessBSS` (the
latter whenever its recursive cascade completes within its step budget). -/
theorem C3_cascade_fixed_point :
    (∀ (proc : MC.Process) (msg : MC.Message),
      (∀ m ∈ proc.pending, MC.is_deliverable proc m = false) →
      ∀ m ∈ (MC.receive_message proc msg).1.pending,
        MC.is_deliverable (MC.receive_message proc msg).1 m = false) ∧
    (∀ (proc : MC.Process) (msg : MC.Message) (proc' : MC.Process),
      MC.receive_message proc msg = (proc', Outcome.Delivered) →
      ∀ m ∈ proc'.pending, MC.is_deliverable proc' m = false) ∧
    (∀ (n fuel : ℕ) (st : BSS.BState n) (m : BSS.BMsg n)
      (st' : BSS.BState n) (out : Outcome),
      BSS.receive_message fuel st m = some (st', out) →
      (∀ x ∈ st.buffer, BSS.bssDeliverable st.vector_clock x = false) →
      ∀ x ∈ st'.buffer, BSS.bssDeliverable st'.vector_clock x = false) ∧
    (∀ (n fuel : ℕ) (st : BSS.BState n) (m : BSS.BMsg n)
      (st' : BSS.BState n),
      BSS.receive_message fuel st m = some (st', Outcome.Delivered) →
      ∀ x ∈ st'.buffer, BSS.bssDeliverable st'.vector_clock x = false) := by
  refine ⟨MC.mc_receive_fixed, ?_, fun n => BSS.bss_receive_fixed, ?_⟩
  · intro proc msg proc' h
    by_cases hd : MC.is_deliverable proc msg
    · rw [MC.receive_message, if_pos hd, Prod.mk.injEq] at h
      rw [← h.1]
      exact MC.try_deliver_pending_fixed
        (MC.deliver_message proc msg).pending.length _ (le_refl _)
    · rw [MC.receive_message, if_neg hd, Prod.mk.injEq] at h
      exact absurd h.2 (by decide)
  · intro n fuel st m st' h
    by_cases hd : BSS.bssDeliverable st.vector_clock m
    · rw [BSS.receive_message, if_pos hd] at h
      rcases hcb : BSS.check_buffer fuel
          (BSS.mergeClock st.vector_clock m.timestamp) st.buffer with _ | p
      · rw [hcb] at h
        exact absurd h (by simp)
      · rw [hcb] at h
        obtain ⟨L', buf'⟩ := p
        injection h with h
        rw [Prod.mk.injEq] at h
        rw [← h.1]
        exact BSS.check_buffer_fixed fuel _ _ _ _ hcb
    · rw [BSS.receive_message, if_neg hd] at h
      injection h with h
      rw [Prod.mk.injEq] at h
      exact absurd h.2 (by decide)

/-- Witness for C3 at a concrete input: a fresh P1 buffering the
undeliverable `msgX` leaves a buffer whose only entry is still
undeliverable. -/
theorem C3_cascade_fixed_point_witness :
    MC.is_deliverable (MC.receive_message procY msgX).1 msgX = false :=
  C3_cascade_fixed_point.1 procY msgX
    (fun m hm => absurd hm (List.not_mem_nil m)) msgX (by decide)

/-- Counterexample to claim C6: in the scenario's actual run, P1 buffers m2
(it is not deliverable, contrary to the claim), and P2 delivers m3
immediately (not Buffered as the claim states). -/
theorem C6_counterexample :
    Scenario.recv2.map Prod.snd = some Outcome.Buffered ∧
    Scenario.recv2.map Prod.snd ≠ some Outcome.Delivered ∧
    Scenario.recv3.map Prod.snd = some Outcome.Delivered ∧
    Scenario.recv3.map Prod.snd ≠ some Outcome.Buffered := by
  decide

/-- Claim C6 amended to the code's actual run: m2 (timestamp `[2,0,0]`,
P0's second send) is buffered at P1, which still holds the zero clock; m3
therefore carries timestamp `[0,1,0]` and P2 receiving m3 before m1
delivers it immediately (clock `[0,1,0]`); the subsequent receive of m1 is
also Delivered (clock `[1,1,0]`) and the drain finds P2's buffer empty. -/
theorem C6_actual_scenario :
    Scenario.send1.2.timestamp = ![1, 0, 0] ∧
    Scenario.send2.2.timestamp = ![2, 0, 0] ∧
    Scenario.recv2.map Prod.snd = some Outcome.Buffered ∧
    Scenario.P1a.vector_clock = ![0, 0, 0] ∧
    Scenario.P1a.buffer = [Scenario.send2.2] ∧
    Scenario.send3.2.timestamp = ![0, 1, 0] ∧
    Scenario.recv3.map Prod.snd = some Outcome.Delivered ∧
    Scenario.P2a.vector_clock = ![0, 1, 0] ∧
    Scenario.P2a.buffer = [] ∧
    Scenario.recv1.map Prod.snd = some Outcome.Delivered ∧
    Scenario.P2b.vector_clock = ![1, 1, 0] ∧
    Scenario.P2b.buffer = [] := by
  decide

/-- Counterexample to claim C7: a message whose sender id 5 lies outside
`[0, 3)` is not rejected — the quantified clause evaluates to `False`
before any out-of-range access happens, Python's `and` short-circuits, and
the message is silently buffered. -/
theorem C7_counterexample :
    ¬ (0 ≤ mBad.sender ∧ mBad.sender < (stR.num_processes : ℤ)) ∧
    Raw.receive_decision stR mBad = Except.ok (Outcome.Buffered, [mBad]) := by
  decide

/-- Claim C7 amended: `receive_message` performs no dimensionality or
sender-range validation; it evaluates the deliverability condition directly
with Python indexing semantics, so any message — malformed or not — whose
quantified clause evaluates to `False` is silently buffered, never
rejected; a malformed message can only surface as an uncaught `IndexError`
raised from inside the condition itself. -/
theorem C7_no_validation_before_buffering (st : Raw.RState) (m : Raw.RMsg)
    (h : Raw.causalAll st.vector_clock m.timestamp m.sender
      (List.range st.num_processes) = Except.ok false) :
    Raw.receive_decision st m =
      Except.ok (Outcome.Buffered, st.buffer ++ [m]) := by
  rw [Raw.receive_decision, h]

/-- Witness for C7 at a concrete input: sender id 7 with timestamp
`[3,3,3]` (out of range for 3 processes) is silently buffered. -/
theorem C7_no_validation_before_buffering_witness :
    Raw.receive_decision stR mBad2 = Except.ok (Outcome.Buffered, [mBad2]) :=
  C7_no_validation_before_buffering stR mBad2 (by decide)

/-- Claim C9: snapshot immutability.  At the heap level, `send_message`
snapshots the just-incremented clock into a fresh cell; the returned
message's cell then holds the send-time clock value, and no sequence of
later clock operations (further sends, in-place increments, merge rebinds,
in-place matrix merges) ever changes that cell. -/
theorem C9_snapshot_immutability (st : Heap.HState) (i : ℕ)
    (ops : List Heap.HOp) (hwf : st.clockRef < st.next) :
    (Heap.sendH st i).1.store (Heap.sendH st i).2 =
      Heap.clockVal (Heap.stepH st (Heap.HOp.incEntry i)) ∧
    (Heap.runH (Heap.sendH st i).1 ops).store (Heap.sendH st i).2 =
      (Heap.sendH st i).1.store (Heap.sendH st i).2 := by
  constructor
  · show (if (Heap.stepH st (Heap.HOp.incEntry i)).next =
        (Heap.stepH st (Heap.HOp.incEntry i)).next then _ else _) = _
    rw [if_pos rfl]
  · refine Heap.runH_frame ops (Heap.sendH st i).1 (Heap.sendH st i).2 ?_ ?_ ?_
    · show (Heap.stepH st (Heap.HOp.incEntry i)).next <
        (Heap.stepH (Heap.stepH st (Heap.HOp.incEntry i))
          Heap.HOp.snapshotCopy).next
      simp [Heap.stepH, Heap.write, Heap.alloc]
    · show (Heap.stepH st (Heap.HOp.incEntry i)).next ≠
        (Heap.stepH (Heap.stepH st (Heap.HOp.incEntry i))
          Heap.HOp.snapshotCopy).clockRef
      simp only [Heap.stepH, Heap.write, Heap.alloc]
      omega
    · show (Heap.stepH (Heap.stepH st (Heap.HOp.incEntry i))
          Heap.HOp.snapshotCopy).clockRef <
        (Heap.stepH (Heap.stepH st (Heap.HOp.incEntry i))
          Heap.HOp.snapshotCopy).next
      simp only [Heap.stepH, Heap.write, Heap.alloc]
      omega

/-- Witness for C9 at a concrete input: the snapshot cell of a send from
the clock `[0,0]` holds `[1,0]` and still holds `[1,0]` after a further
increment, a merge rebind, an in-place merge and another snapshot. -/
theorem C9_snapshot_immutability_witness :
    (Heap.runH (Heap.sendH hst0 0).1 hops).store (Heap.sendH hst0 0).2 =
      [1, 0] :=
  ((C9_snapshot_immutability hst0 0 hops (by decide)).2).trans (by decide)

end PDC
